import Mathlib

/-!
Shallow embedding of the comparison/synthesis core of the worldview-extractor
repository (`src/wve-rs/src`): the pairwise comparator (`comparison/diff.rs`),
the blindspot finder (`comparison/blindspots.rs`), the movement synthesizer
(`synthesis/movement.rs`) and the similarity service (`embeddings.rs`),
together with theorems settling the specification claims.

Modelling conventions:
* Rust `f32`/`f64` values are modelled as rationals; a score that may be IEEE
  NaN is modelled as `Option ℚ` with `none` playing the role of NaN.
* The external embedding model (fastembed) is modelled as an oracle parameter;
  a `none`/`Except.error` answer models a failed model load or inference error.
* `Vec<T>` becomes `List T`, `HashSet<usize>` becomes a `List Nat` used only
  through membership, and the blindspot `HashMap` becomes an association list
  (its iteration order is unspecified in Rust; no theorem depends on order).
-/

namespace WVE

/-- Model of `WorldviewPoint` from `models.rs`. `confidence : f64` is modelled
as a rational. -/
structure WorldviewPoint where
  theme : String
  stance : String
  confidence : ℚ
  evidence : List String
  sources : List String
deriving DecidableEq

/-- Model of `Worldview` from `models.rs`. Timestamps are opaque naturals. -/
structure Worldview where
  id : Option Int
  slug : String
  subject : String
  points : List WorldviewPoint
  created_at : Nat
  updated_at : Nat
deriving DecidableEq

/-- Model of an `f32` similarity score: `none` models IEEE NaN. -/
abbrev Score := Option ℚ

/-- Model of the similarity service interface used by `find_matching_point`
(`embeddings::find_most_similar`): given a query theme and candidate theme
strings it either fails (`none`, modelling `Err(_)`) or returns a ranked list
of `(index, score)` pairs. -/
abbrev SimService := String → List String → Option (List (Nat × Score))

/-- Model of a completely unavailable similarity backend: every call fails. -/
def noService : SimService := fun _ _ => none

/-- Constant `SIMILARITY_THRESHOLD = 0.7` from `comparison/diff.rs`. -/
def similarityThreshold : ℚ := 7 / 10

/-- Rust comparison `score >= SIMILARITY_THRESHOLD` on an `f32` score.
A NaN score (`none`) compares `false`, as in IEEE arithmetic. -/
def scoreMeetsThreshold : Score → Bool
  | some q => similarityThreshold ≤ q
  | none => false

/-- Rust `str::to_lowercase`, modelled as per-character lowercasing of the
string's characters (the themes and stances of interest are ASCII, where the
two coincide). Defined on the character list so that it evaluates inside the
kernel. -/
def lowerStr (s : String) : String :=
  ⟨s.data.map Char.toLower⟩

/-- Rust `str::trim`: drop whitespace characters from both ends. -/
def trimData (l : List Char) : List Char :=
  ((l.dropWhile Char.isWhitespace).reverse.dropWhile Char.isWhitespace).reverse

/-- Function `normalize_theme` from `comparison/diff.rs`:
`theme.to_lowercase().trim().to_string()`. -/
def normalizeTheme (theme : String) : String :=
  ⟨trimData (lowerStr theme).data⟩

/-- Model of `Alignment` from `comparison/diff.rs`. -/
inductive Alignment where
  | Agreement
  | Tension
  | Nuance
deriving DecidableEq

/-- Model of `PointComparison` from `comparison/diff.rs`. -/
structure PointComparison where
  theme : String
  point_a : WorldviewPoint
  point_b : WorldviewPoint
  alignment : Alignment
deriving DecidableEq

/-- Model of `WorldviewDiff` from `comparison/diff.rs`. `similarity_score`
(`f64`) is modelled as a rational. -/
structure WorldviewDiff where
  subject_a : String
  subject_b : String
  agreements : List PointComparison
  tensions : List PointComparison
  unique_to_a : List WorldviewPoint
  unique_to_b : List WorldviewPoint
  similarity_score : ℚ
deriving DecidableEq

/-- Fixed negation-marker set from `compare_stances` in `comparison/diff.rs`. -/
def negationMarkers : List String :=
  ["not", "against", "oppose", "reject", "deny"]

/-- Rust `str::contains` (substring containment) on the character level; for
the ASCII negation markers this coincides with byte-level containment. -/
def strContainsSub (hay pat : String) : Bool :=
  decide (pat.data <:+: hay.data)

/-- Rust expression `negatives.iter().any(|n| s.to_lowercase().contains(n))`
from `compare_stances`. -/
def stanceIsNegative (s : String) : Bool :=
  negationMarkers.any (fun n => strContainsSub (lowerStr s) n)

/-- Function `compare_stances` from `comparison/diff.rs`. -/
def compareStances (a b : String) : Alignment :=
  if stanceIsNegative a != stanceIsNegative b then Alignment.Tension
  else Alignment.Agreement

/-- Lexical fallback of `find_matching_point`: Rust's
`points.iter().find(|p| normalize_theme(&p.theme) == normalize_theme(theme))`,
fused with the `position(|p| ptr::eq(p, point_b))` index re-derivation in
`diff_worldviews` (the reference returned by `find` is the first normalized
match, and `ptr::eq` recovers exactly its index). `start` is the index of the
head of `points` in the full list. -/
def findFirstNormMatch (theme : String) : List WorldviewPoint → Nat → Option (Nat × WorldviewPoint)
  | [], _ => none
  | p :: rest, start =>
    if normalizeTheme p.theme = normalizeTheme theme then some (start, p)
    else findFirstNormMatch theme rest (start + 1)

/-- Function `find_matching_point` from `comparison/diff.rs`, returning the
matched point together with its index in `points` (the Rust code returns the
reference and re-derives the index with `ptr::eq`; see `findFirstNormMatch`).
The semantic path asks the similarity service only when `points` is nonempty
and accepts the top-ranked candidate when its score meets the 0.7 threshold.
A service answer whose top index is out of range (impossible for the real
`find_most_similar`, which enumerates the candidates; the Rust indexing
`&points[idx]` would panic) is treated as no semantic match. -/
def findMatchingPoint (svc : SimService) (theme : String) (points : List WorldviewPoint) :
    Option (Nat × WorldviewPoint) :=
  let semantic : Option (Nat × WorldviewPoint) :=
    if points.isEmpty then none
    else
      match svc theme (points.map (fun p => p.theme)) with
      | some sims =>
        match sims.head? with
        | some (idx, score) =>
          if scoreMeetsThreshold score then
            (points.get? idx).map (fun p => (idx, p))
          else none
        | none => none
      | none => none
  match semantic with
  | some m => some m
  | none => findFirstNormMatch theme points 0

/-- Accumulator of the `for point_a in &a.points` loop of `diff_worldviews`:
the `agreements`, `tensions` and `unique_to_a` vectors and the
`matched_b_indices` set (a list used only through membership). -/
structure DiffAcc where
  agreements : List PointComparison
  tensions : List PointComparison
  uniqueA : List WorldviewPoint
  matchedB : List Nat
deriving DecidableEq

/-- One iteration of the A loop of `diff_worldviews`: `m` is the result of
`find_matching_point`. On a match the comparison (with the alignment computed
by `compare_stances`) goes to `tensions` on `Tension` and to `agreements`
otherwise (`Agreement | Nuance` in the Rust `match`), and the matched B index
is recorded; otherwise the point goes to `unique_to_a`. -/
def diffStep (pa : WorldviewPoint) (m : Option (Nat × WorldviewPoint)) (acc : DiffAcc) : DiffAcc :=
  match m with
  | none => ⟨acc.agreements, acc.tensions, pa :: acc.uniqueA, acc.matchedB⟩
  | some (idx, pb) =>
    match compareStances pa.stance pb.stance with
    | Alignment.Tension =>
      ⟨acc.agreements, ⟨pa.theme, pa, pb, Alignment.Tension⟩ :: acc.tensions,
        acc.uniqueA, idx :: acc.matchedB⟩
    | al =>
      ⟨⟨pa.theme, pa, pb, al⟩ :: acc.agreements, acc.tensions,
        acc.uniqueA, idx :: acc.matchedB⟩

/-- Loop of `diff_worldviews` over the points of worldview A, against the
fixed point list `bpts` of worldview B. -/
def diffLoop (svc : SimService) (bpts : List WorldviewPoint) :
    List WorldviewPoint → DiffAcc
  | [] => ⟨[], [], [], []⟩
  | pa :: rest =>
    diffStep pa (findMatchingPoint svc pa.theme bpts) (diffLoop svc bpts rest)

/-- Second loop of `diff_worldviews`: the B points whose index was never
recorded in `matched_b_indices`, in B's original order. -/
def uniqueToB (matched : List Nat) (bpts : List WorldviewPoint) : List WorldviewPoint :=
  (bpts.enum.filter (fun ip => !matched.contains ip.1)).map (fun ip => ip.2)

/-- Final similarity computation of `diff_worldviews`: `agreements / total`
(exact rational division modelling the `f64` division) when `total > 0`,
otherwise `0.0`. -/
def simScore (acc : DiffAcc) (uniqueB : List WorldviewPoint) : ℚ :=
  let total :=
    acc.agreements.length + acc.tensions.length + acc.uniqueA.length + uniqueB.length
  if 0 < total then (acc.agreements.length : ℚ) / (total : ℚ) else 0

/-- Function `diff_worldviews` from `comparison/diff.rs`, parametrized by the
similarity service. -/
def diffWorldviews (svc : SimService) (a b : Worldview) : WorldviewDiff :=
  { subject_a := a.subject
    subject_b := b.subject
    agreements := (diffLoop svc b.points a.points).agreements
    tensions := (diffLoop svc b.points a.points).tensions
    unique_to_a := (diffLoop svc b.points a.points).uniqueA
    unique_to_b := uniqueToB (diffLoop svc b.points a.points).matchedB b.points
    similarity_score :=
      simScore (diffLoop svc b.points a.points)
        (uniqueToB (diffLoop svc b.points a.points).matchedB b.points) }

/-- Every step of the A loop routes the processed point into exactly one of
the three A-side buckets, so the bucket sizes always sum to the number of
processed points. -/
theorem diffLoop_length_partition (svc : SimService) (bpts : List WorldviewPoint) :
    ∀ l : List WorldviewPoint,
      (diffLoop svc bpts l).agreements.length + (diffLoop svc bpts l).tensions.length +
        (diffLoop svc bpts l).uniqueA.length = l.length := by
  intro l
  induction l with
  | nil => simp [diffLoop]
  | cons pa rest ih =>
    simp only [diffLoop]
    cases hm : findMatchingPoint svc pa.theme bpts with
    | none =>
      simp only [diffStep, List.length_cons]
      omega
    | some m =>
      obtain ⟨idx, pb⟩ := m
      cases hc : compareStances pa.stance pb.stance <;>
        simp only [diffStep, hc, List.length_cons] <;> omega

/-- Multiset version: the A points recorded in `agreements`, `tensions` and
`unique_to_a` are a permutation of the processed points. -/
theorem diffLoop_perm (svc : SimService) (bpts : List WorldviewPoint) :
    ∀ l : List WorldviewPoint,
      ((diffLoop svc bpts l).agreements.map (fun c => c.point_a) ++
        (diffLoop svc bpts l).tensions.map (fun c => c.point_a) ++
        (diffLoop svc bpts l).uniqueA).Perm l := by
  intro l
  induction l with
  | nil => simp [diffLoop]
  | cons pa rest ih =>
    simp only [diffLoop]
    cases hm : findMatchingPoint svc pa.theme bpts with
    | none =>
      simp only [diffStep]
      exact List.perm_middle.trans (ih.cons pa)
    | some m =>
      obtain ⟨idx, pb⟩ := m
      cases hc : compareStances pa.stance pb.stance
      case Tension =>
        simp only [diffStep, hc, List.map_cons]
        refine List.Perm.trans ?_ (ih.cons pa)
        exact (List.perm_middle.append_right _).trans (by simp)
      case Agreement =>
        simp only [diffStep, hc, List.map_cons]
        simpa using ih.cons pa
      case Nuance =>
        simp only [diffStep, hc, List.map_cons]
        simpa using ih.cons pa

/-- C1: for every similarity-service behavior and every pair of worldviews,
`diff_worldviews` partitions A's points: the A points stored in `agreements`,
`tensions` and `unique_to_a` are a permutation of `A.points`, and in
particular `|agreements| + |tensions| + |unique_to_a| = |A.points|`. -/
theorem C1_partition_of_A (svc : SimService) (a b : Worldview) :
    ((diffWorldviews svc a b).agreements.map (fun c => c.point_a) ++
      (diffWorldviews svc a b).tensions.map (fun c => c.point_a) ++
      (diffWorldviews svc a b).unique_to_a).Perm a.points ∧
    (diffWorldviews svc a b).agreements.length + (diffWorldviews svc a b).tensions.length +
      (diffWorldviews svc a b).unique_to_a.length = a.points.length := by
  constructor
  · exact diffLoop_perm svc b.points a.points
  · exact diffLoop_length_partition svc b.points a.points

/-- C3: the similarity score of every diff is `|agreements| / (|agreements| +
|tensions| + |unique_to_a| + |unique_to_b|)`, or `0` when that denominator is
`0`, and consequently always lies in `[0, 1]`. -/
theorem C3_similarity_score (svc : SimService) (a b : Worldview) :
    (diffWorldviews svc a b).similarity_score =
      (if (diffWorldviews svc a b).agreements.length + (diffWorldviews svc a b).tensions.length +
          (diffWorldviews svc a b).unique_to_a.length + (diffWorldviews svc a b).unique_to_b.length
          = 0 then 0
        else ((diffWorldviews svc a b).agreements.length : ℚ) /
          ((((diffWorldviews svc a b).agreements.length +
            (diffWorldviews svc a b).tensions.length +
            (diffWorldviews svc a b).unique_to_a.length +
            (diffWorldviews svc a b).unique_to_b.length : Nat)) : ℚ)) ∧
    0 ≤ (diffWorldviews svc a b).similarity_score ∧
    (diffWorldviews svc a b).similarity_score ≤ 1 := by
  set acc := diffLoop svc b.points a.points with hacc
  set ub := uniqueToB acc.matchedB b.points with hub
  have hfields : (diffWorldviews svc a b).similarity_score = simScore acc ub ∧
      (diffWorldviews svc a b).agreements = acc.agreements ∧
      (diffWorldviews svc a b).tensions = acc.tensions ∧
      (diffWorldviews svc a b).unique_to_a = acc.uniqueA ∧
      (diffWorldviews svc a b).unique_to_b = ub := by
    simp [diffWorldviews, hacc, hub]
  obtain ⟨hs, h1, h2, h3, h4⟩ := hfields
  rw [hs, h1, h2, h3, h4]
  unfold simScore
  by_cases htot :
      acc.agreements.length + acc.tensions.length + acc.uniqueA.length + ub.length = 0
  · simp [htot]
  · have hpos : 0 < acc.agreements.length + acc.tensions.length + acc.uniqueA.length + ub.length :=
      Nat.pos_of_ne_zero htot
    have hposq :
        (0 : ℚ) < ((acc.agreements.length + acc.tensions.length + acc.uniqueA.length +
          ub.length : Nat) : ℚ) := by
      exact_mod_cast hpos
    have hlen : acc.agreements.length ≤
        acc.agreements.length + acc.tensions.length + acc.uniqueA.length + ub.length := by
      omega
    have hle : (acc.agreements.length : ℚ) ≤
        ((acc.agreements.length + acc.tensions.length + acc.uniqueA.length +
          ub.length : Nat) : ℚ) := by
      exact_mod_cast hlen
    refine ⟨by simp [hpos, htot], ?_, ?_⟩
    · simp only [hpos, if_pos]
      positivity
    · simp only [hpos, if_pos]
      exact div_le_one_of_le₀ hle (le_of_lt hposq)

/-- Stance `s` contains (case-insensitively, as a substring) one of the fixed
negation markers; Prop-level counterpart of `stanceIsNegative`. -/
def HasNegationMarker (s : String) : Prop :=
  ∃ m ∈ negationMarkers, m.data <:+: (lowerStr s).data

/-- Bridge between the executable `stanceIsNegative` of the code and the
declarative marker condition. -/
theorem stanceIsNegative_iff (s : String) :
    stanceIsNegative s = true ↔ HasNegationMarker s := by
  simp [stanceIsNegative, strContainsSub, HasNegationMarker, List.any_eq_true]

/-- C4: a matched pair is classified `Tension` exactly when precisely one of
the two stances contains a negation marker (case-insensitive substring from
the fixed set), `Agreement` exactly when both or neither does, and the
heuristic never produces `Nuance`. -/
theorem C4_stance_classification (a b : String) :
    (compareStances a b = Alignment.Tension ↔
      ¬(HasNegationMarker a ↔ HasNegationMarker b)) ∧
    (compareStances a b = Alignment.Agreement ↔
      (HasNegationMarker a ↔ HasNegationMarker b)) ∧
    compareStances a b ≠ Alignment.Nuance := by
  have ha := stanceIsNegative_iff a
  have hb := stanceIsNegative_iff b
  unfold compareStances
  cases hA : stanceIsNegative a <;> cases hB : stanceIsNegative b <;> simp_all

/-- Shifting the starting index of the lexical scan shifts the reported
index. -/
theorem findFirstNormMatch_shift (theme : String) :
    ∀ (l : List WorldviewPoint) (s : Nat),
      findFirstNormMatch theme l (s + 1) =
        (findFirstNormMatch theme l s).map (fun ip => (ip.1 + 1, ip.2)) := by
  intro l
  induction l with
  | nil => intro s; simp [findFirstNormMatch]
  | cons p rest ih =>
    intro s
    by_cases h : normalizeTheme p.theme = normalizeTheme theme
    · simp [findFirstNormMatch, h]
    · simp [findFirstNormMatch, h, ih]

/-- The lexical scan starting at index `0` returns precisely the first point
of the list whose normalized theme equals the normalized query theme,
together with its index. -/
theorem findFirstNormMatch_some_iff (theme : String) :
    ∀ (l : List WorldviewPoint) (i : Nat) (p : WorldviewPoint),
      findFirstNormMatch theme l 0 = some (i, p) ↔
        (l.get? i = some p ∧ normalizeTheme p.theme = normalizeTheme theme ∧
          ∀ j q, j < i → l.get? j = some q →
            normalizeTheme q.theme ≠ normalizeTheme theme) := by
  intro l
  induction l with
  | nil => intro i p; simp [findFirstNormMatch]
  | cons p0 rest ih =>
    intro i p
    by_cases h : normalizeTheme p0.theme = normalizeTheme theme
    · simp only [findFirstNormMatch, if_pos h]
      cases i with
      | zero =>
        constructor
        · intro he
          have hp : p0 = p := ((Prod.mk.injEq _ _ _ _).mp (Option.some.inj he)).2
          subst hp
          exact ⟨rfl, h, fun j q hj _ => absurd hj (Nat.not_lt_zero j)⟩
        · rintro ⟨hget, hnorm, hfirst⟩
          have hp : p0 = p := by simpa using hget
          simp [hp]
      | succ k =>
        constructor
        · intro he
          exact absurd (Option.some.inj he) (by simp)
        · rintro ⟨hget, hnorm, hfirst⟩
          exact absurd h (hfirst 0 p0 (Nat.succ_pos k) rfl)
    · simp only [findFirstNormMatch, if_neg h]
      rw [show (0 : Nat) + 1 = 0 + 1 from rfl, findFirstNormMatch_shift theme rest 0]
      cases i with
      | zero =>
        constructor
        · intro he
          rcases hm : findFirstNormMatch theme rest 0 with _ | ⟨⟨i', p'⟩⟩ <;>
            rw [hm] at he <;> simp at he
        · rintro ⟨hget, hnorm, hfirst⟩
          have : p0 = p := by simpa using hget
          exact absurd (this ▸ hnorm) h
      | succ k =>
        constructor
        · intro he
          rcases hm : findFirstNormMatch theme rest 0 with _ | ⟨⟨i', p'⟩⟩ <;>
            rw [hm] at he <;> simp at he
          obtain ⟨hik, hp⟩ := he
          have hrest : findFirstNormMatch theme rest 0 = some (k, p) := by
            rw [hm, hik, hp]
          rw [ih k p] at hrest
          obtain ⟨hget, hnorm, hfirst⟩ := hrest
          refine ⟨by simpa using hget, hnorm, ?_⟩
          intro j q hj hq
          cases j with
          | zero =>
            have : p0 = q := by simpa using hq
            exact this ▸ h
          | succ m =>
            exact hfirst m q (Nat.lt_of_succ_lt_succ hj) (by simpa using hq)
        · rintro ⟨hget, hnorm, hfirst⟩
          have hrest : findFirstNormMatch theme rest 0 = some (k, p) := by
            rw [ih k p]
            refine ⟨by simpa using hget, hnorm, ?_⟩
            intro j q hj hq
            exact hfirst (j + 1) q (Nat.succ_lt_succ hj) (by simpa using hq)
          rw [hrest]
          simp

/-- The lexical scan fails exactly when no point of the list has the
normalized query theme. -/
theorem findFirstNormMatch_none_iff (theme : String) :
    ∀ (l : List WorldviewPoint) (s : Nat),
      findFirstNormMatch theme l s = none ↔
        ∀ q ∈ l, normalizeTheme q.theme ≠ normalizeTheme theme := by
  intro l
  induction l with
  | nil => intro s; simp [findFirstNormMatch]
  | cons p0 rest ih =>
    intro s
    by_cases h : normalizeTheme p0.theme = normalizeTheme theme
    · simp [findFirstNormMatch, h]
    · simp [findFirstNormMatch, h, ih (s + 1)]

/-- With a service that always fails, `find_matching_point` is exactly the
lexical fallback scan. -/
theorem findMatchingPoint_noService (theme : String) (points : List WorldviewPoint) :
    findMatchingPoint noService theme points = findFirstNormMatch theme points 0 := by
  simp [findMatchingPoint, noService]

/-- C5: when every similarity-service call fails, `find_matching_point`
matches a point exactly by equality of themes after lowercasing and trimming,
returning the first such B point in order (and fails only when no B point
matches); the comparator never propagates the service failure, and the
resulting diff still partitions all of A's points. -/
theorem C5_failed_service_lexical_fallback :
    (∀ (theme : String) (points : List WorldviewPoint) (i : Nat) (p : WorldviewPoint),
      findMatchingPoint noService theme points = some (i, p) ↔
        (points.get? i = some p ∧ normalizeTheme p.theme = normalizeTheme theme ∧
          ∀ j q, j < i → points.get? j = some q →
            normalizeTheme q.theme ≠ normalizeTheme theme)) ∧
    (∀ (theme : String) (points : List WorldviewPoint),
      findMatchingPoint noService theme points = none ↔
        ∀ q ∈ points, normalizeTheme q.theme ≠ normalizeTheme theme) ∧
    (∀ a b : Worldview,
      (diffWorldviews noService a b).agreements.length +
        (diffWorldviews noService a b).tensions.length +
        (diffWorldviews noService a b).unique_to_a.length = a.points.length) := by
  refine ⟨?_, ?_, ?_⟩
  · intro theme points i p
    rw [findMatchingPoint_noService]
    exact findFirstNormMatch_some_iff theme points i p
  · intro theme points
    rw [findMatchingPoint_noService]
    exact findFirstNormMatch_none_iff theme points 0
  · intro a b
    exact diffLoop_length_partition noService b.points a.points

/-- Witness for C5: on a two-point list whose second point is the first
normalized match, the fallback returns index `1`. -/
theorem C5_witness :
    findMatchingPoint noService "AI Regulation"
      [⟨"economics", "s", 1, [], []⟩, ⟨"ai regulation ", "t", 1, [], []⟩] =
      some (1, ⟨"ai regulation ", "t", 1, [], []⟩) := by
  refine (C5_failed_service_lexical_fallback.1 "AI Regulation"
    [⟨"economics", "s", 1, [], []⟩, ⟨"ai regulation ", "t", 1, [], []⟩] 1
    ⟨"ai regulation ", "t", 1, [], []⟩).mpr ⟨by decide, by decide, ?_⟩
  intro j q hj hq
  interval_cases j
  have h0 := hq
  simp at h0
  subst h0
  decide

/-- Comparing identical stances never yields a tension. -/
theorem compareStances_self (s : String) :
    compareStances s s = Alignment.Agreement := by
  simp [compareStances]

/-- Generalization of `findMatchingPoint_noService` to any service whose
calls all fail. -/
theorem findMatchingPoint_failedService (svc : SimService)
    (hsvc : ∀ q cs, svc q cs = none) (theme : String) (points : List WorldviewPoint) :
    findMatchingPoint svc theme points = findFirstNormMatch theme points 0 := by
  simp [findMatchingPoint, hsvc]

/-- In a list with pairwise distinct normalized themes the same point value
cannot sit at two different indices. -/
theorem distinctNorm_index_unique (pts : List WorldviewPoint)
    (hd : pts.Pairwise fun p q => normalizeTheme p.theme ≠ normalizeTheme q.theme) :
    ∀ i j p, pts.get? i = some p → pts.get? j = some p → i = j := by
  intro i j p hi hj
  obtain ⟨hil, hgi⟩ := List.get?_eq_some.mp hi
  obtain ⟨hjl, hgj⟩ := List.get?_eq_some.mp hj
  rcases Nat.lt_trichotomy i j with h | h | h
  · have hR := List.pairwise_iff_get.mp hd ⟨i, hil⟩ ⟨j, hjl⟩ h
    rw [hgi, hgj] at hR
    exact absurd rfl hR
  · exact h
  · have hR := List.pairwise_iff_get.mp hd ⟨j, hjl⟩ ⟨i, hil⟩ h
    rw [hgi, hgj] at hR
    exact absurd rfl hR

/-- With a failing service and pairwise distinct normalized themes, every
point of the candidate list matches itself, at its own index. -/
theorem findMatchingPoint_self (svc : SimService)
    (hsvc : ∀ q cs, svc q cs = none) (pts : List WorldviewPoint)
    (hd : pts.Pairwise fun p q => normalizeTheme p.theme ≠ normalizeTheme q.theme) :
    ∀ k p, pts.get? k = some p → findMatchingPoint svc p.theme pts = some (k, p) := by
  intro k p hk
  rw [findMatchingPoint_failedService svc hsvc]
  refine (findFirstNormMatch_some_iff _ pts k p).mpr ⟨hk, rfl, ?_⟩
  intro j q hj hq
  obtain ⟨hkl, hgetk⟩ := List.get?_eq_some.mp hk
  obtain ⟨hjl, hgetj⟩ := List.get?_eq_some.mp hq
  have hR := List.pairwise_iff_get.mp hd ⟨j, hjl⟩ ⟨k, hkl⟩ hj
  rw [hgetj, hgetk] at hR
  exact hR

/-- When every processed point matches itself (`find_matching_point` returns
the point with some index `f p`), the A loop classifies everything as an
agreement of the point with itself and records exactly the indices `f p`. -/
theorem diffLoop_all_self (svc : SimService) (bpts : List WorldviewPoint)
    (f : WorldviewPoint → Nat) :
    ∀ l : List WorldviewPoint,
      (∀ p ∈ l, findMatchingPoint svc p.theme bpts = some (f p, p)) →
      diffLoop svc bpts l =
        ⟨l.map (fun p => ⟨p.theme, p, p, Alignment.Agreement⟩), [], [], l.map f⟩ := by
  intro l
  induction l with
  | nil => intro _; simp [diffLoop]
  | cons pa rest ih =>
    intro h
    have hpa := h pa (List.mem_cons_self pa rest)
    have hrest := ih fun p hp => h p (List.mem_cons_of_mem pa hp)
    simp [diffLoop, hpa, hrest, diffStep, compareStances_self]

/-- Point used by the C2 counterexample. -/
def dupPoint : WorldviewPoint :=
  ⟨"t", "yes", 1, [], []⟩

/-- Counterexample input for C2: a worldview with two points sharing the same
theme (the data model permits duplicate themes). -/
def dupThemeWorldview : Worldview :=
  ⟨none, "dup", "Dup", [dupPoint, dupPoint], 0, 0⟩

/-- Comparison record produced twice by the C2 counterexample: both A points
match the first B copy of the duplicated theme. -/
def dupCmp : PointComparison :=
  ⟨"t", dupPoint, dupPoint, Alignment.Agreement⟩

/-- C2 counterexample: comparing the duplicate-theme worldview against an
identical copy of itself (with the similarity backend down, a configuration
the comparator explicitly supports) leaves the second copy of the duplicated
point unmatched — `unique_to_b` is nonempty and the similarity score is `2/3`,
not `1`. -/
theorem C2_counterexample :
    (diffWorldviews noService dupThemeWorldview dupThemeWorldview).unique_to_b ≠ [] ∧
    (diffWorldviews noService dupThemeWorldview dupThemeWorldview).similarity_score ≠ 1 ∧
    (diffWorldviews noService dupThemeWorldview dupThemeWorldview).similarity_score = 2 / 3 := by
  have hloop : diffLoop noService dupThemeWorldview.points dupThemeWorldview.points =
      ⟨[dupCmp, dupCmp], [], [], [0, 0]⟩ := by decide
  have hub : uniqueToB ([0, 0] : List Nat) dupThemeWorldview.points = [dupPoint] := by decide
  have hu : (diffWorldviews noService dupThemeWorldview dupThemeWorldview).unique_to_b
      = [dupPoint] := by
    show uniqueToB (diffLoop noService dupThemeWorldview.points dupThemeWorldview.points).matchedB
      dupThemeWorldview.points = [dupPoint]
    rw [hloop]
    exact hub
  have hs : (diffWorldviews noService dupThemeWorldview dupThemeWorldview).similarity_score
      = 2 / 3 := by
    show simScore (diffLoop noService dupThemeWorldview.points dupThemeWorldview.points)
      (uniqueToB (diffLoop noService dupThemeWorldview.points dupThemeWorldview.points).matchedB
        dupThemeWorldview.points) = 2 / 3
    rw [hloop]
    show simScore ⟨[dupCmp, dupCmp], [], [], [0, 0]⟩
      (uniqueToB ([0, 0] : List Nat) dupThemeWorldview.points) = 2 / 3
    rw [hub]
    norm_num [simScore]
  refine ⟨?_, ?_, hs⟩
  · rw [hu]
    exact List.cons_ne_nil _ _
  · rw [hs]
    norm_num

/-- C2 (amended): when every similarity-service call fails and the worldview
is nonempty with pairwise distinct normalized themes, the self-diff has empty
`unique_to_a`, `unique_to_b` and `tensions`, places every point in
`agreements` (as an agreement of the point with itself, in order), and has
similarity score exactly `1`. -/
theorem C2_self_diff (svc : SimService) (w : Worldview)
    (hsvc : ∀ q cs, svc q cs = none)
    (hd : w.points.Pairwise fun p q => normalizeTheme p.theme ≠ normalizeTheme q.theme)
    (hne : w.points ≠ []) :
    (diffWorldviews svc w w).unique_to_a = [] ∧
    (diffWorldviews svc w w).unique_to_b = [] ∧
    (diffWorldviews svc w w).tensions = [] ∧
    (diffWorldviews svc w w).agreements =
      w.points.map (fun p => ⟨p.theme, p, p, Alignment.Agreement⟩) ∧
    (diffWorldviews svc w w).similarity_score = 1 := by
  classical
  set pts := w.points with hpts
  have hex : ∀ p, p ∈ pts → ∃ k, pts.get? k = some p := by
    intro p hp
    exact List.mem_iff_get?.mp hp
  let f : WorldviewPoint → Nat :=
    fun p => if hp : ∃ k, pts.get? k = some p then hp.choose else 0
  have hf : ∀ p ∈ pts, pts.get? (f p) = some p := by
    intro p hp
    have hpe := hex p hp
    show pts.get? (dite _ _ _) = some p
    rw [dif_pos hpe]
    exact hpe.choose_spec
  have hmatch : ∀ p ∈ pts, findMatchingPoint svc p.theme pts = some (f p, p) :=
    fun p hp => findMatchingPoint_self svc hsvc pts hd (f p) p (hf p hp)
  have hloop := diffLoop_all_self svc pts f pts hmatch
  have hub : uniqueToB (pts.map f) pts = [] := by
    unfold uniqueToB
    rw [List.map_eq_nil_iff, List.filter_eq_nil_iff]
    intro ip hip
    obtain ⟨hlt, hval⟩ := List.mem_enum hip
    have hgv : pts.get? ip.1 = some ip.2 := by
      rw [List.get?_eq_getElem?, List.getElem?_eq_getElem hlt, hval]
    have hmem : ip.2 ∈ pts := List.get?_mem hgv
    have hfi : f ip.2 = ip.1 :=
      distinctNorm_index_unique pts hd (f ip.2) ip.1 ip.2 (hf ip.2 hmem) hgv
    have : ip.1 ∈ pts.map f := by
      rw [List.mem_map]
      exact ⟨ip.2, hmem, hfi⟩
    simp [this]
  have hn : 0 < pts.length := List.length_pos.mpr hne
  refine ⟨?_, ?_, ?_, ?_, ?_⟩
  · show (diffLoop svc pts pts).uniqueA = []
    rw [hloop]
  · show uniqueToB (diffLoop svc pts pts).matchedB pts = []
    rw [hloop]
    exact hub
  · show (diffLoop svc pts pts).tensions = []
    rw [hloop]
  · show (diffLoop svc pts pts).agreements = _
    rw [hloop]
  · show simScore (diffLoop svc pts pts) (uniqueToB (diffLoop svc pts pts).matchedB pts) = 1
    rw [hloop]
    unfold simScore
    simp only [hub]
    have hlen : (pts.map fun p => (⟨p.theme, p, p, Alignment.Agreement⟩ :
        PointComparison)).length = pts.length := List.length_map _ _
    simp only [hlen, List.length_nil, Nat.add_zero]
    rw [if_pos hn]
    have hnz : ((pts.length : ℚ)) ≠ 0 := by
      exact_mod_cast Nat.pos_iff_ne_zero.mp hn
    exact div_self hnz

/-- Concrete two-point worldview with distinct normalized themes, used by the
C2 witness. -/
def distinctThemeWorldview : Worldview :=
  ⟨none, "w", "W", [⟨"a", "s", 1, [], []⟩, ⟨"b", "s", 1, [], []⟩], 0, 0⟩

/-- Rational stand-in for `f32::sqrt` on finite nonnegative values. Its exact
value is irrelevant to every theorem below (no claim depends on the numeric
value of a cosine similarity, only on NaN propagation and the zero guard);
it exists so that `cosine_similarity` is a total executable function. -/
def ratSqrt (q : ℚ) : ℚ :=
  (Nat.sqrt q.num.toNat : ℚ) / (Nat.sqrt q.den : ℚ)

/-- Addition of `f32` values: NaN propagates. Rounding of finite values is
abstracted to exact rational arithmetic. -/
def sAdd : Score → Score → Score
  | some a, some b => some (a + b)
  | _, _ => none

/-- Multiplication of `f32` values: NaN propagates. -/
def sMul : Score → Score → Score
  | some a, some b => some (a * b)
  | _, _ => none

/-- Division of `f32` values: NaN propagates. In `cosine_similarity` the
divisor is only used under the nonzero-magnitude guard. -/
def sDiv : Score → Score → Score
  | some a, some b => some (a / b)
  | _, _ => none

/-- Square root of an `f32` value: NaN propagates, and a negative argument
yields NaN as in IEEE arithmetic. -/
def sSqrt : Score → Score
  | some q => if q < 0 then none else some (ratSqrt q)
  | none => none

/-- Rust comparison `x == 0.0` on an `f32`: NaN compares unequal to zero. -/
def scoreIsZero : Score → Bool
  | some q => q == 0
  | none => false

/-- Expression `a.iter().zip(b.iter()).map(|(x, y)| x * y).sum()` from
`cosine_similarity` in `embeddings.rs`. -/
def dotScore (a b : List Score) : Score :=
  ((a.zip b).map (fun xy => sMul xy.1 xy.2)).foldl sAdd (some 0)

/-- Expression `v.iter().map(|x| x * x).sum::<f32>().sqrt()` from
`cosine_similarity`. -/
def normScore (v : List Score) : Score :=
  sSqrt ((v.map (fun x => sMul x x)).foldl sAdd (some 0))

/-- Function `cosine_similarity` from `embeddings.rs`: exactly `0` when either
magnitude compares equal to zero (the deliberate division-by-zero guard),
otherwise `dot / (norm_a * norm_b)`. -/
def cosineSimilarity (a b : List Score) : Score :=
  if scoreIsZero (normScore a) || scoreIsZero (normScore b) then some 0
  else sDiv (dotScore a b) (sMul (normScore a) (normScore b))

/-- Model of `embed_text` (`embeddings.rs`): the lazily loaded fastembed model
is external, so embedding is an oracle that may fail (model unavailable or
inference error). `embed_texts` applies the same oracle to each text of the
batch. -/
abbrev EmbedFn := String → Except Unit (List Score)

/-- Outcomes of `find_most_similar` other than a normal return: `embedFail`
models an `Err` propagated by `?` from `embed_text`/`embed_texts`; `panicNaN`
models the process abort when `partial_cmp(..).unwrap()` is called on a NaN
score inside `sort_by`. -/
inductive SimFailure where
  | embedFail
  | panicNaN
deriving DecidableEq

/-- Rust comparator verdict "strictly greater score" used to model the stable
descending `sort_by`; it is only reached on non-NaN scores (the NaN case is
trapped by the panic guard in `findMostSimilar`). -/
def scoreGt : Score → Score → Bool
  | some x, some y => y < x
  | _, _ => false

/-- Stable insertion of a later element into an already sorted prefix: the
element passes earlier entries only when its score is strictly greater, so
ties keep the original (ascending-index) order, as Rust's stable `sort_by`
does. -/
def insertByScore (x : Nat × Score) : List (Nat × Score) → List (Nat × Score)
  | [] => [x]
  | y :: rest =>
    if scoreGt x.2 y.2 then x :: y :: rest else y :: insertByScore x rest

/-- Model of `similarities.sort_by(|a, b| b.1.partial_cmp(&a.1).unwrap())`
on non-NaN scores: stable descending sort by score. -/
def sortByScoreDesc (l : List (Nat × Score)) : List (Nat × Score) :=
  l.foldl (fun acc x => insertByScore x acc) []

/-- Function `find_most_similar` from `embeddings.rs`. The query is embedded
first, then the candidate batch; either failure propagates via `?`. The
scored candidates are sorted with `partial_cmp(..).unwrap()`: when at least
two scores are present and one of them is NaN the comparator is invoked on
the NaN score (every element of a slice of length at least two takes part in
at least one comparison) and `unwrap` panics, modelled by `panicNaN`. -/
def findMostSimilar (embed : EmbedFn) (query : String) (candidates : List String) :
    Except SimFailure (List (Nat × Score)) :=
  match embed query with
  | Except.error _ => Except.error SimFailure.embedFail
  | Except.ok queryEmb =>
    match candidates.mapM embed with
    | Except.error _ => Except.error SimFailure.embedFail
    | Except.ok candidateEmbs =>
      let sims := candidateEmbs.enum.map
        (fun ie => (ie.1, cosineSimilarity queryEmb ie.2))
      if 2 ≤ sims.length ∧ sims.any (fun p => p.2.isNone) then
        Except.error SimFailure.panicNaN
      else Except.ok (sortByScoreDesc sims)

/-- Model of a completely unavailable embedding model. -/
def failEmb : EmbedFn := fun _ => Except.error ()

/-- Model of an embedding backend that succeeds but produces a NaN coordinate
in every vector. -/
def nanEmb : EmbedFn := fun _ => Except.ok [none]

/-- Embedding oracle that always succeeds, used by the C6 witness. -/
def okEmb : EmbedFn := fun _ => Except.ok [some 1]

/-- C6 counterexample: with the embedding model unavailable, ranking an empty
candidate list does not yield an empty result — the query is embedded first,
so the call fails. This refutes "without invoking the model" and "cannot fail
even when the model is unavailable". -/
theorem C6_counterexample :
    findMostSimilar failEmb "q" [] = Except.error SimFailure.embedFail ∧
    findMostSimilar failEmb "q" [] ≠ Except.ok [] := by
  constructor <;> simp [findMostSimilar, failEmb]

/-- C6 (amended): ranking an empty candidate list yields an empty result
whenever embedding the query succeeds; the model is invoked on the query
(and on the empty batch) first. -/
theorem C6_empty_candidates (embed : EmbedFn) (q : String) (v : List Score)
    (h : embed q = Except.ok v) :
    findMostSimilar embed q [] = Except.ok [] := by
  simp [findMostSimilar, h, sortByScoreDesc, List.mapM, List.mapM.loop, pure, Except.pure]

/-- Witness for the amended C6 at a concrete successful oracle. -/
theorem C6_empty_candidates_witness :
    findMostSimilar okEmb "a" [] = Except.ok [] :=
  C6_empty_candidates okEmb "a" [some 1] rfl

/-- C7: a NaN similarity score is not rejected as an inference error — it
reaches the naive numeric comparator inside `sort_by`, whose
`partial_cmp(..).unwrap()` panics. Concretely, with two candidates whose
embeddings contain a NaN coordinate, `find_most_similar` aborts instead of
returning an error value. -/
theorem C7_nan_reaches_comparator :
    findMostSimilar nanEmb "q" ["a", "b"] = Except.error SimFailure.panicNaN := rfl

/-- Witness for the amended C2 at a concrete nonempty worldview with distinct
normalized themes. -/
theorem C2_self_diff_witness :
    (diffWorldviews noService distinctThemeWorldview distinctThemeWorldview).unique_to_a = [] ∧
    (diffWorldviews noService distinctThemeWorldview distinctThemeWorldview).unique_to_b = [] ∧
    (diffWorldviews noService distinctThemeWorldview distinctThemeWorldview).tensions = [] ∧
    (diffWorldviews noService distinctThemeWorldview distinctThemeWorldview).agreements =
      distinctThemeWorldview.points.map (fun p => ⟨p.theme, p, p, Alignment.Agreement⟩) ∧
    (diffWorldviews noService distinctThemeWorldview distinctThemeWorldview).similarity_score
      = 1 :=
  C2_self_diff noService distinctThemeWorldview (fun _ _ => rfl) (by decide) (by decide)

/-- Model of `VoicePosition` from `synthesis/movement.rs`. -/
structure VoicePosition where
  subject : String
  stance : String
  confidence : ℚ
deriving DecidableEq

/-- Model of `SectionItem` from `synthesis/movement.rs`. -/
structure SectionItem where
  theme : String
  voices : List VoicePosition
  synthesis : String
deriving DecidableEq

/-- Model of `MovementSection` from `synthesis/movement.rs`. -/
structure MovementSection where
  name : String
  content : List SectionItem
deriving DecidableEq

/-- Model of `Movement` from `synthesis/movement.rs`; `generated_at`
(`Utc::now()`) is an opaque timestamp passed in by the caller. -/
structure Movement where
  title : String
  generated_at : Nat
  subjects : List String
  sections : List MovementSection
  summary : String
deriving DecidableEq

/-- Convergence item built from one agreement comparison of the pair
`(wi, wj)` in `generate_movement`. -/
def convergenceItem (wi wj : Worldview) (c : PointComparison) : SectionItem :=
  ⟨c.theme,
    [⟨wi.subject, c.point_a.stance, c.point_a.confidence⟩,
      ⟨wj.subject, c.point_b.stance, c.point_b.confidence⟩],
    "Both " ++ wi.subject ++ " and " ++ wj.subject ++ " converge on: " ++ c.theme⟩

/-- Tension item built from one tension comparison of the pair `(wi, wj)`. -/
def tensionItem (wi wj : Worldview) (c : PointComparison) : SectionItem :=
  ⟨c.theme,
    [⟨wi.subject, c.point_a.stance, c.point_a.confidence⟩,
      ⟨wj.subject, c.point_b.stance, c.point_b.confidence⟩],
    "Tension between " ++ wi.subject ++ " and " ++ wj.subject ++ " on: " ++ c.theme⟩

/-- Unique-voice item built from one unmatched point of worldview `w`. -/
def uniqueItem (w : Worldview) (p : WorldviewPoint) : SectionItem :=
  ⟨p.theme, [⟨w.subject, p.stance, p.confidence⟩],
    "Unique to " ++ w.subject ++ ": " ++ p.theme⟩

/-- Ordered pairs `(i, j)` with `i < j` of the Rust double loop
`for i in 0..n; for j in (i+1)..n`, realized on the list itself. -/
def allPairs {α : Type} : List α → List (α × α)
  | [] => []
  | x :: rest => rest.map (fun y => (x, y)) ++ allPairs rest

/-- Uniqueness test of `generate_movement`: point `p` of worldview index `i`
is unique when no other worldview has a point whose theme matches after
`to_lowercase()` — note: lowercasing only, no trimming. -/
def isUniquePoint (worldviews : List Worldview) (i : Nat) (p : WorldviewPoint) : Bool :=
  (worldviews.enum.filter (fun iw => iw.1 != i)).all
    (fun iw => !(iw.2.points.any (fun q => lowerStr q.theme == lowerStr p.theme)))

/-- Function `generate_movement` from `synthesis/movement.rs`, parametrized
by the similarity service used by the pairwise diffs and by the call
timestamp. The Rust loop interleaves pushes into the three vectors per `i`;
since each vector only ever receives its own kind of item, the final contents
are the concatenations below, in the same order. -/
def generateMovement (svc : SimService) (worldviews : List Worldview)
    (title : Option String) (now : Nat) : Movement :=
  let subjects := worldviews.map (fun w => w.subject)
  let convergences :=
    ((allPairs worldviews).map (fun ij =>
      (diffWorldviews svc ij.1 ij.2).agreements.map (convergenceItem ij.1 ij.2))).flatten
  let tensions :=
    ((allPairs worldviews).map (fun ij =>
      (diffWorldviews svc ij.1 ij.2).tensions.map (tensionItem ij.1 ij.2))).flatten
  let uniqueVoices :=
    (worldviews.enum.map (fun iw =>
      (iw.2.points.filter (fun p => isUniquePoint worldviews iw.1 p)).map
        (uniqueItem iw.2))).flatten
  { title := title.getD "Synthesis Movement"
    generated_at := now
    subjects := subjects
    sections :=
      [⟨"Convergences", convergences⟩, ⟨"Tensions", tensions⟩,
        ⟨"Unique Voices", uniqueVoices⟩]
    summary :=
      "Synthesis of " ++ toString subjects.length ++ " worldviews: " ++
        toString convergences.length ++ " convergences, " ++
        toString tensions.length ++ " tensions, " ++
        toString uniqueVoices.length ++ " unique positions." }

/-- With a single worldview there is no other worldview, so the uniqueness
test is vacuously true for every point. -/
theorem isUniquePoint_single (w : Worldview) (p : WorldviewPoint) :
    isUniquePoint [w] 0 p = true := by
  simp [isUniquePoint, List.enum]

/-- C8: synthesizing a single worldview yields empty Convergences and
Tensions sections, a Unique Voices section with one item per point in order,
and a summary reporting the worldview count (1) and the three section sizes
(0, 0, and the number of points). -/
theorem C8_single_worldview (svc : SimService) (w : Worldview)
    (title : Option String) (now : Nat) :
    (generateMovement svc [w] title now).sections =
      [⟨"Convergences", []⟩, ⟨"Tensions", []⟩,
        ⟨"Unique Voices", w.points.map (uniqueItem w)⟩] ∧
    (generateMovement svc [w] title now).summary =
      "Synthesis of " ++ toString (1 : Nat) ++ " worldviews: " ++
        toString (0 : Nat) ++ " convergences, " ++ toString (0 : Nat) ++ " tensions, " ++
        toString w.points.length ++ " unique positions." := by
  have hfilter : w.points.filter (fun p => isUniquePoint [w] 0 p) = w.points := by
    refine List.filter_eq_self.mpr ?_
    intro p _
    exact isUniquePoint_single w p
  constructor
  · simp [generateMovement, allPairs, List.enum, hfilter]
  · simp [generateMovement, allPairs, List.enum, hfilter]

/-- C10: the uniqueness test of `generate_movement` lowercases but does not
trim, so two single-point worldviews whose themes differ only in a way that
survives lowercasing (for example leading/trailing whitespace) while their
lowercase-plus-trim normalizations coincide are both classified as unique:
the Unique Voices section contains both points, for every similarity-service
behavior. -/
theorem C10_uniqueness_lowercase_only (svc : SimService) (wa wb : Worldview)
    (pa pb : WorldviewPoint) (title : Option String) (now : Nat)
    (ha : wa.points = [pa]) (hb : wb.points = [pb])
    (hlow : lowerStr pa.theme ≠ lowerStr pb.theme)
    (_hnorm : normalizeTheme pa.theme = normalizeTheme pb.theme) :
    (generateMovement svc [wa, wb] title now).sections.get? 2 =
      some ⟨"Unique Voices", [uniqueItem wa pa, uniqueItem wb pb]⟩ := by
  have hua : isUniquePoint [wa, wb] 0 pa = true := by
    simp [isUniquePoint, List.enum, List.enumFrom, hb]
    exact fun h => absurd h.symm hlow
  have hub : isUniquePoint [wa, wb] 1 pb = true := by
    simp [isUniquePoint, List.enum, List.enumFrom, ha]
    exact fun h => absurd h hlow
  simp [generateMovement, List.enum, List.enumFrom, ha, hb, hua, hub]

/-- Single-point worldview with theme `"x"`, used by the C10 witness. -/
def plainThemeWorldview : Worldview :=
  ⟨none, "wa", "A", [⟨"x", "sa", 1, [], []⟩], 0, 0⟩

/-- Single-point worldview whose theme differs from `"x"` only by leading
whitespace, used by the C10 witness. -/
def paddedThemeWorldview : Worldview :=
  ⟨none, "wb", "B", [⟨" x", "sb", 1, [], []⟩], 0, 0⟩

/-- Model of `Blindspot` from `comparison/blindspots.rs`. -/
structure Blindspot where
  subject : String
  missing_theme : String
  addressed_by : List String
  examples : List WorldviewPoint
deriving DecidableEq

/-- Set of normalized themes present in the target worldview (the `HashSet`
built at the top of `find_blindspots`), as a list used through membership. -/
def targetThemeSet (target : Worldview) : List String :=
  target.points.map (fun p => normalizeTheme p.theme)

/-- Rust `blindspots.entry(norm).or_insert_with(seed)` followed by the two
pushes: if the key is present its record gets `otherSubject`/`p` appended,
otherwise a fresh record (seeded with `p`'s original-case theme as display
label) is added. The `HashMap` is modelled as an association list. -/
def blindUpdate (targetSubject otherSubject : String) (p : WorldviewPoint) (norm : String) :
    List (String × Blindspot) → List (String × Blindspot)
  | [] => [(norm, ⟨targetSubject, p.theme, [otherSubject], [p]⟩)]
  | (k, b) :: rest =>
    if k = norm then
      (k, ⟨b.subject, b.missing_theme, b.addressed_by ++ [otherSubject],
        b.examples ++ [p]⟩) :: rest
    else (k, b) :: blindUpdate targetSubject otherSubject p norm rest

/-- Inner loop of `find_blindspots` over the points of one other worldview:
a point whose normalized theme the target already addresses is skipped,
otherwise it is accumulated under its normalized theme. -/
def blindFoldPts (target : Worldview) (otherSubject : String) :
    List WorldviewPoint → List (String × Blindspot) → List (String × Blindspot)
  | [], m => m
  | p :: rest, m =>
    blindFoldPts target otherSubject rest
      (if (targetThemeSet target).contains (normalizeTheme p.theme) then m
       else blindUpdate target.subject otherSubject p (normalizeTheme p.theme) m)

/-- Outer loop of `find_blindspots` over the other worldviews. -/
def blindFoldAll (target : Worldview) :
    List Worldview → List (String × Blindspot) → List (String × Blindspot)
  | [], m => m
  | other :: rest, m =>
    blindFoldAll target rest (blindFoldPts target other.subject other.points m)

/-- Function `find_blindspots` from `comparison/blindspots.rs`
(`blindspots.into_values().collect()`; the Rust `HashMap` iteration order is
unspecified and no theorem below depends on the order of this list). -/
def findBlindspots (target : Worldview) (comparisons : List Worldview) : List Blindspot :=
  (blindFoldAll target comparisons []).map (fun kb => kb.2)

/-- Invariant of the blindspot accumulator: every record is keyed by the
normalized form of its display label, and that key is a theme the target
does not address. -/
def BlindInv (target : Worldview) (m : List (String × Blindspot)) : Prop :=
  ∀ kb ∈ m, normalizeTheme kb.2.missing_theme = kb.1 ∧
    ∀ p ∈ target.points, normalizeTheme p.theme ≠ kb.1

/-- Updating the accumulator with a point whose normalized theme the target
lacks preserves the invariant. -/
theorem blindUpdate_inv (target : Worldview) (otherSubject : String)
    (p : WorldviewPoint)
    (hp : ∀ q ∈ target.points, normalizeTheme q.theme ≠ normalizeTheme p.theme) :
    ∀ m, BlindInv target m →
      BlindInv target (blindUpdate target.subject otherSubject p (normalizeTheme p.theme) m) := by
  intro m
  induction m with
  | nil =>
    intro _
    intro kb hkb
    simp [blindUpdate] at hkb
    subst hkb
    exact ⟨rfl, hp⟩
  | cons kb0 rest ih =>
    intro hinv
    obtain ⟨k, b⟩ := kb0
    by_cases hk : k = normalizeTheme p.theme
    · simp only [blindUpdate, if_pos hk]
      intro kb hkb
      rcases List.mem_cons.mp hkb with h | h
      · subst h
        have h0 := hinv (k, b) (List.mem_cons_self _ _)
        exact ⟨h0.1, h0.2⟩
      · exact hinv kb (List.mem_cons_of_mem _ h)
    · simp only [blindUpdate, if_neg hk]
      intro kb hkb
      rcases List.mem_cons.mp hkb with h | h
      · subst h
        exact hinv (k, b) (List.mem_cons_self _ _)
      · exact ih (fun kb' hkb' => hinv kb' (List.mem_cons_of_mem _ hkb')) kb h

/-- The inner point loop preserves the invariant. -/
theorem blindFoldPts_inv (target : Worldview) (otherSubject : String) :
    ∀ (l : List WorldviewPoint) (m : List (String × Blindspot)),
      BlindInv target m → BlindInv target (blindFoldPts target otherSubject l m) := by
  intro l
  induction l with
  | nil => intro m hm; exact hm
  | cons p rest ih =>
    intro m hm
    simp only [blindFoldPts]
    by_cases hc : (targetThemeSet target).contains (normalizeTheme p.theme) = true
    · rw [if_pos hc]
      exact ih m hm
    · rw [if_neg hc]
      refine ih _ ?_
      refine blindUpdate_inv target otherSubject p ?_ m hm
      intro q hq hqe
      refine hc ?_
      have : normalizeTheme p.theme ∈ targetThemeSet target := by
        rw [← hqe]
        exact List.mem_map_of_mem _ hq
      exact List.elem_eq_true_of_mem this


/-- The outer worldview loop preserves the invariant. -/
theorem blindFoldAll_inv (target : Worldview) :
    ∀ (others : List Worldview) (m : List (String × Blindspot)),
      BlindInv target m → BlindInv target (blindFoldAll target others m) := by
  intro others
  induction others with
  | nil => intro m hm; exact hm
  | cons other rest ih =>
    intro m hm
    exact ih _ (blindFoldPts_inv target other.subject other.points m hm)

/-- When every scanned point has a normalized theme the target addresses,
the inner loop adds nothing. -/
theorem blindFoldPts_skip (target : Worldview) (otherSubject : String) :
    ∀ (l : List WorldviewPoint) (m : List (String × Blindspot)),
      (∀ p ∈ l, (targetThemeSet target).contains (normalizeTheme p.theme) = true) →
      blindFoldPts target otherSubject l m = m := by
  intro l
  induction l with
  | nil => intro m _; rfl
  | cons p rest ih =>
    intro m h
    simp only [blindFoldPts]
    rw [if_pos (h p (List.mem_cons_self _ _))]
    exact ih m fun q hq => h q (List.mem_cons_of_mem _ hq)

/-- C9: every blindspot returned for a target names a theme absent (in
normalized form) from the target; a blindspot scan against no other
worldviews returns nothing; and a scan against an identical copy of the
target returns nothing. -/
theorem C9_blindspots_absent_themes :
    (∀ (target : Worldview) (others : List Worldview) (b : Blindspot),
      b ∈ findBlindspots target others →
        ∀ p ∈ target.points, normalizeTheme p.theme ≠ normalizeTheme b.missing_theme) ∧
    (∀ target : Worldview, findBlindspots target [] = []) ∧
    (∀ target : Worldview, findBlindspots target [target] = []) := by
  refine ⟨?_, ?_, ?_⟩
  · intro target others b hb p hp
    obtain ⟨kb, hkb, hkb2⟩ := List.mem_map.mp hb
    have hinv := blindFoldAll_inv target others [] (by intro kb h; cases h) kb hkb
    rw [hkb2] at hinv
    rw [hinv.1]
    exact hinv.2 p hp
  · intro target
    rfl
  · intro target
    unfold findBlindspots blindFoldAll
    rw [blindFoldPts_skip target target.subject target.points []]
    · rfl
    · intro p hp
      exact List.elem_eq_true_of_mem (List.mem_map_of_mem _ hp)

/-- Target worldview for the C9 witness: addresses only the theme `"a"`. -/
def blindTarget : Worldview :=
  ⟨none, "t", "T", [⟨"a", "s", 1, [], []⟩], 0, 0⟩

/-- Other worldview for the C9 witness: raises the theme `"b"`, which the
target lacks. -/
def blindOther : Worldview :=
  ⟨none, "o", "O", [⟨"b", "s", 1, [], []⟩], 0, 0⟩

/-- Witness for C9: the blindspot record actually produced for the target at
a concrete input names a theme whose normalized form the target's sole point
does not carry. -/
theorem C9_blindspots_absent_themes_witness :
    normalizeTheme (⟨"a", "s", 1, [], []⟩ : WorldviewPoint).theme ≠
      normalizeTheme (⟨"T", "b", ["O"], [⟨"b", "s", 1, [], []⟩]⟩ : Blindspot).missing_theme :=
  C9_blindspots_absent_themes.1 blindTarget [blindOther]
    ⟨"T", "b", ["O"], [⟨"b", "s", 1, [], []⟩]⟩ (by decide)
    ⟨"a", "s", 1, [], []⟩ (by decide)

/-- Witness for C10 at the concrete whitespace-only theme pair. -/
theorem C10_uniqueness_lowercase_only_witness :
    (generateMovement noService [plainThemeWorldview, paddedThemeWorldview]
        none 0).sections.get? 2 =
      some ⟨"Unique Voices",
        [uniqueItem plainThemeWorldview ⟨"x", "sa", 1, [], []⟩,
          uniqueItem paddedThemeWorldview ⟨" x", "sb", 1, [], []⟩]⟩ :=
  C10_uniqueness_lowercase_only noService plainThemeWorldview paddedThemeWorldview
    ⟨"x", "sa", 1, [], []⟩ ⟨" x", "sb", 1, [], []⟩ none 0 rfl rfl
    (by decide) (by decide)

end WVE
